import Mathlib

/-!
Shallow embedding of `AdditionalValidationSets`
(src/implementations/relevant_parts_of_most_recent_version.py), a Keras
training callback that, at the end of each epoch, evaluates a model on
additional validation sets and records metrics (and optionally raw
predictions) into an in-memory history dictionary.

Modelling choices:
* Python floats that can be NaN are modelled by `Val` (`nan` or an exact
  number); metric values are opaque to the callback, so this loses nothing.
* A numpy multi-array (list of arrays, each indexed by example) is
  `Arr := List (List Val)`: outer index = array/output, inner = example;
  `shape[0]` of an array is the inner list length.
* A Python generator is modelled as the list of batches it will yield;
  `next` consumes the head, and fewer remaining elements than requested
  steps is a `StopIteration` error.
* The external Keras model is a structure of opaque functions
  (`evaluate`, `evaluate_generator`, `predict`) plus `metrics_names`.
* A raw validation-set entry (a Python tuple of arbitrary objects) is a
  `List PyObj`; the constructor checks only its length, exactly as the
  source does.  At epoch end the tuple is destructured; `parseSpec`
  embeds that destructuring, returning `none` where Python unpacking or
  the subsequent typed use of the components would raise.
* Python dicts with insertion order are association lists with unique
  keys; `histAppend` embeds `dict.setdefault(k, []).append(v)`.
* Exceptions are `Except String`; an assertion failure is the error
  "AssertionError".  Because Python mutations performed before an
  exception persist, the epoch-end step returns the history as mutated
  up to the failure point, paired with an optional error.
-/

/-- A Python float as stored in the history: NaN or an exact value. -/
inductive Val where
  | nan
  | num (q : Int)
deriving Repr, DecidableEq

/-- A multi-output numpy value: list of arrays, each a list of per-example entries. -/
abbrev Arr := List (List Val)

/-- One batch yielded by a validation generator: `(xs, ys)`. -/
abbrev Batch := Arr × Arr

/-- A Python object as far as the callback inspects it. -/
inductive PyObj where
  | pynone
  | pystr (s : String)
  | pynat (n : Nat)
  | pygen (g : List Batch)
  | pyarr (a : Arr)
  | pypair (a b : PyObj)
deriving Repr, DecidableEq

/-- A prediction bundle recorded for one epoch: `{'y_pred': ..., 'y_true': ...}`,
each a list of per-example lists (one entry per model output). -/
structure Predictions where
  y_pred : List (List Val)
  y_true : List (List Val)
deriving Repr, DecidableEq

/-- A value stored in the history: a metric value or a prediction bundle. -/
inductive HistVal where
  | metric (v : Val)
  | preds (p : Predictions)
deriving Repr, DecidableEq

/-- The history dictionary: insertion-ordered association list with unique keys. -/
abbrev History := List (String × List HistVal)

/-- `self.history.setdefault(key, []).append(v)`. -/
def histAppend : History → String → HistVal → History
  | [], k, v => [(k, [v])]
  | (k', vs) :: rest, k, v =>
    if k' = k then (k', vs ++ [v]) :: rest else (k', vs) :: histAppend rest k v

/-- The recorded sequence under a key (`[]` when the key is absent). -/
def histLookup : History → String → List HistVal
  | [], _ => []
  | (k', vs) :: rest, k => if k' = k then vs else histLookup rest k

/-- The keys of the history, in insertion order. -/
def histKeys (h : History) : List String := h.map Prod.fst

/-- The external Keras model, as consumed by the callback. -/
structure KerasModel where
  metrics_names : List String
  evaluate_generator : List Batch → Nat → List Val
  /-- `evaluate(x=…, y=…, verbose=…, sample_weight=…, batch_size=…)`. -/
  evaluate : Arr → Arr → Nat → Option Arr → Option Nat → List Val
  /-- `predict(x, batch_size=…)`: one array per model output. -/
  predict : Arr → Option Nat → Arr

/-- A successfully destructured validation-set entry, one of the three
documented shapes. -/
inductive ParsedSpec where
  | genSpec (gen : List Batch) (steps : Nat) (name : String)
  | arrSpec (data : Arr) (targets : Arr) (name : String)
  | arrWSpec (data : Arr) (targets : Arr) (weights : Arr) (name : String)
deriving Repr, DecidableEq

/-- The validation-set name of a parsed entry. -/
def ParsedSpec.name : ParsedSpec → String
  | .genSpec _ _ n => n
  | .arrSpec _ _ n => n
  | .arrWSpec _ _ _ n => n

/-- Embeds the per-entry destructuring at the top of the epoch-end loop:
a 2-tuple must be `((generator, steps), name)`, a 3-tuple
`(data, targets, name)`, a 4-tuple `(data, targets, sample_weights, name)`.
`none` where Python unpacking (or the typed use of a component) would raise. -/
def parseSpec : List PyObj → Option ParsedSpec
  | [PyObj.pypair (PyObj.pygen g) (PyObj.pynat s), PyObj.pystr n] =>
      some (.genSpec g s n)
  | [PyObj.pyarr d, PyObj.pyarr t, PyObj.pystr n] => some (.arrSpec d t n)
  | [PyObj.pyarr d, PyObj.pyarr t, PyObj.pyarr w, PyObj.pystr n] =>
      some (.arrWSpec d t w n)
  | _ => none

/-- The callback's state (configuration fields plus mutable history). -/
structure CallbackState where
  record_predictions : Bool
  validation_sets : List (List PyObj)
  epoch : List Nat
  history : History
  verbose : Nat
  batch_size : Option Nat
  record_original_history : Bool
deriving Repr, DecidableEq

namespace AdditionalValidationSets

/-- `__init__`: store the configuration, raising `ValueError` when some
entry's length is not 2, 3 or 4; fresh `epoch` and `history`. -/
def init (validation_sets : List (List PyObj)) (verbose : Nat)
    (batch_size : Option Nat) (record_original_history : Bool)
    (record_predictions : Bool) : Except String CallbackState :=
  if validation_sets.all (fun vs => vs.length = 2 ∨ vs.length = 3 ∨ vs.length = 4)
  then .ok { record_predictions := record_predictions
             validation_sets := validation_sets
             epoch := []
             history := []
             verbose := verbose
             batch_size := batch_size
             record_original_history := record_original_history }
  else .error "ValueError"

/-- `on_train_begin`: reset `epoch` and `history`. -/
def on_train_begin (st : CallbackState) : CallbackState :=
  { st with epoch := [], history := [] }

/-- `next` applied `steps` times to the generator: its first `steps`
batches, or `StopIteration` when it is exhausted first. -/
def takeBatches (gen : List Batch) (steps : Nat) : Except String (List Batch) :=
  if steps ≤ gen.length then .ok (gen.take steps) else .error "StopIteration"

/-- `[output[batch_idx] for output in batch]` for one `batch_idx`;
`none` where Python would raise `IndexError`. -/
def gatherExample (batch : Arr) (idx : Nat) : Option (List Val) :=
  batch.mapM (fun output => output[idx]?)

/-- The inner reformatting loop for one batch:
`for batch_idx in range(batch[0].shape[0]): append([output[batch_idx] for output in batch])`;
`none` where `batch[0]` or `output[batch_idx]` would raise `IndexError`. -/
def reformatBatch (batch : Arr) : Option (List (List Val)) :=
  match batch.head? with
  | none => none
  | some first => (List.range first.length).mapM (gatherExample batch)

/-- The full reformatting loop over all recorded batches, appending the
per-example rows of each batch in order. -/
def reformatAll (batches : List Arr) : Option (List (List Val)) :=
  match batches.mapM reformatBatch with
  | none => none
  | some rs => some rs.flatten

/-- `model.predict(xs, batch_size=xs[0].shape[0])` for one collected
batch, `IndexError` when `xs` is empty. -/
def predictBatch (m : KerasModel) (b : Batch) : Except String Arr :=
  match (b.1).head? with
  | none => .error "IndexError"
  | some first => .ok (m.predict b.1 (some first.length))

/-- Lines 75-99: collect predictions for a generator validation set.
For each of `steps` batches: `xs, ys = batch`, predict with
`batch_size=xs[0].shape[0]`, record `y_pred`/`y_true` batchwise; then
reformat both into per-example order and assert equal lengths. -/
def genPredictions (m : KerasModel) (gen : List Batch) (steps : Nat) :
    Except String Predictions :=
  match takeBatches gen steps with
  | .error e => .error e
  | .ok batches =>
    match batches.mapM (predictBatch m) with
    | .error e => .error e
    | .ok rawPred =>
      match reformatAll rawPred, reformatAll (batches.map (fun b => b.2)) with
      | none, _ => .error "IndexError"
      | some _, none => .error "IndexError"
      | some yp, some yt =>
        if yt.length = yp.length then .ok ⟨yp, yt⟩
        else .error "AssertionError"

/-- `min` of the lengths of the rows (`0` for no rows): how far `zip(*rows)` goes. -/
def minLen (rows : Arr) : Nat := ((rows.map List.length).min?).getD 0

/-- `list(zip(*rows))`: transpose truncated at the shortest row. -/
def zipStar (rows : Arr) : List (List Val) :=
  (List.range (minLen rows)).map (fun i => rows.map (fun row => row.getD i Val.nan))

/-- Lines 106-111: collect predictions for an array validation set:
`y_pred = list(zip(*model.predict(validation_data)))`,
`y_true = list(zip(*validation_targets))`, assert equal lengths. -/
def arrPredictions (m : KerasModel) (data targets : Arr) :
    Except String Predictions :=
  if (zipStar targets).length = (zipStar (m.predict data none)).length
  then .ok ⟨zipStar (m.predict data none), zipStar targets⟩
  else .error "AssertionError"

/-- Lines 125-127: `for i, result in enumerate(results)`, append each
result under `pfx + name + '_' + self.model.metrics_names[i]`;
`IndexError` past the end of `metrics_names`.  The history reflects the
appends made before a failure. -/
def appendMetricsFrom (pfx name : String) (names : List String) :
    Nat → List Val → History → History × Option String
  | _, [], h => (h, none)
  | i, r :: rs, h =>
    match names[i]? with
    | none => (h, some "IndexError")
    | some mn =>
      appendMetricsFrom pfx name names (i + 1) rs
        (histAppend h (pfx ++ name ++ "_" ++ mn) (.metric r))

/-- The metrics-recording loop, started at index 0. -/
def appendMetrics (pfx name : String) (names : List String)
    (results : List Val) (h : History) : History × Option String :=
  appendMetricsFrom pfx name names 0 results h

/-- The body of the epoch-end loop for one (already destructured)
validation set: obtain `results` (and optionally `predictions`) from the
model — or NaNs and empty predictions when the model is `None` — then
append the prediction bundle (when enabled) and the metric values.
`selfModel` is the trained `self.model` (source of `metrics_names`),
`model?` the result of `model_to_evaluate()`. -/
def processSet (pfx : String) (selfModel : KerasModel)
    (model? : Option KerasModel) (recp : Bool) (bs : Option Nat)
    (h : History) (spec : ParsedSpec) : History × Option String :=
  let step1 : Except String (List Val × Option Predictions) :=
    match model? with
    | some m =>
      match spec with
      | .genSpec gen steps _ =>
        let results := m.evaluate_generator gen steps
        if recp then
          match genPredictions m gen steps with
          | .error e => .error e
          | .ok p => .ok (results, some p)
        else .ok (results, none)
      | .arrSpec d t _ =>
        let results := m.evaluate d t 0 none bs
        if recp then
          match arrPredictions m d t with
          | .error e => .error e
          | .ok p => .ok (results, some p)
        else .ok (results, none)
      | .arrWSpec d t w _ =>
        let results := m.evaluate d t 0 (some w) bs
        if recp then
          match arrPredictions m d t with
          | .error e => .error e
          | .ok p => .ok (results, some p)
        else .ok (results, none)
    | none =>
      .ok (selfModel.metrics_names.map (fun _ => Val.nan),
           if recp then some ⟨[], []⟩ else none)
  match step1 with
  | .error e => (h, some e)
  | .ok (results, preds?) =>
    let afterPred : Except String History :=
      if recp then
        match preds? with
        | some p =>
            .ok (histAppend h (pfx ++ spec.name ++ "_predictions") (.preds p))
        | none => .error "AssertionError"
      else .ok h
    match afterPred with
    | .error e => (h, some e)
    | .ok h2 => appendMetrics pfx spec.name selfModel.metrics_names results h2

/-- The epoch-end loop over `self.validation_sets`: destructure each raw
entry and process it; a failure stops the loop, keeping the history as
mutated so far. -/
def processSets (pfx : String) (selfModel : KerasModel)
    (model? : Option KerasModel) (recp : Bool) (bs : Option Nat) :
    History → List (List PyObj) → History × Option String
  | h, [] => (h, none)
  | h, raw :: rest =>
    match parseSpec raw with
    | none => (h, some "ValueError")
    | some spec =>
      match processSet pfx selfModel model? recp bs h spec with
      | (h2, none) => processSets pfx selfModel model? recp bs h2 rest
      | (h2, some e) => (h2, some e)

/-- Lines 43-47: when `record_original_history`, append every entry of
`logs` (or of `{}` when `logs` is `None`) under its unmodified key. -/
def recordLogs (h : History) (logs : List (String × Val)) : History :=
  logs.foldl (fun acc kv => histAppend acc kv.1 (.metric kv.2)) h

/-- `on_epoch_end(epoch, logs)`: append the epoch number, record the
`logs` when configured, and — unless the validation-set list is empty —
evaluate every validation set.  `selfModel` embeds the trained
`self.model`, `model?` the value of `model_to_evaluate()` (equal to
`some selfModel` unless a subclass overrides it), `pfx` the value of
`prefix()` (`""` unless overridden).  Returns the new state and the
uncaught exception, if any. -/
def on_epoch_end (st : CallbackState) (selfModel : KerasModel)
    (model? : Option KerasModel) (pfx : String) (epoch : Nat)
    (logs : Option (List (String × Val))) : CallbackState × Option String :=
  let st1 := { st with epoch := st.epoch ++ [epoch] }
  let st2 :=
    if st1.record_original_history
    then { st1 with history := recordLogs st1.history (logs.getD []) }
    else st1
  if st2.validation_sets.length = 0 then (st2, none)
  else
    let r := processSets pfx selfModel model? st2.record_predictions
      st2.batch_size st2.history st2.validation_sets
    ({ st2 with history := r.1 }, r.2)

/-- `results()`: `None` for an empty history, otherwise the map sending
each key to the last recorded value of its sequence (`IndexError` on an
empty sequence, which `histAppend` never creates). -/
def results (st : CallbackState) :
    Except String (Option (List (String × HistVal))) :=
  if st.history = [] then .ok none
  else do
    let rs ← st.history.mapM (fun kv =>
      match kv.2[kv.2.length - 1]? with
      | some v => Except.ok (kv.1, v)
      | none => Except.error "IndexError")
    pure (some rs)

/-- Fold a batch of `(key, value)` appends into the history, in order. -/
def appendAll (h : History) (kvs : List (String × HistVal)) : History :=
  kvs.foldl (fun acc kv => histAppend acc kv.1 kv.2) h

/-- The metric values the epoch-end loop obtains for a parsed entry:
the generator-based evaluate for the 2-tuple shape, the array-based
evaluate otherwise, with sample weights only for the 4-tuple shape. -/
def evalResults (m : KerasModel) (bs : Option Nat) : ParsedSpec → List Val
  | .genSpec g s _ => m.evaluate_generator g s
  | .arrSpec d t _ => m.evaluate d t 0 none bs
  | .arrWSpec d t w _ => m.evaluate d t 0 (some w) bs

/-- The prediction bundle the epoch-end loop collects for a parsed entry. -/
def collectPredictions (m : KerasModel) : ParsedSpec → Except String Predictions
  | .genSpec g s _ => genPredictions m g s
  | .arrSpec d t _ => arrPredictions m d t
  | .arrWSpec d t _ _ => arrPredictions m d t

/-- `model.predict(xs, batch_size=xs[0].shape[0])` for one generator batch. -/
def predOut (m : KerasModel) (b : Batch) : Arr :=
  m.predict b.1 (some ((b.1).headD []).length)

/-- `a[0].shape[0]`: the example count of a multi-array, read off its
first array (`0` when there is none). -/
def arrSize (a : Arr) : Nat := (a.headD []).length

/-- The number of examples in a generator batch, read off the first
target array (`ys[0].shape[0]`). -/
def trueSize (b : Batch) : Nat := ((b.2).headD []).length

/-- `[output[j] for output in a]`: the per-example row at index `j`. -/
def exampleRow (a : Arr) (j : Nat) : List Val :=
  a.map (fun output => output.getD j Val.nan)

/-- A non-empty multi-array all of whose arrays hold `n` examples. -/
def rect (a : Arr) (n : Nat) : Prop := a ≠ [] ∧ ∀ output ∈ a, output.length = n

instance (a : Arr) (n : Nat) : Decidable (rect a n) := by
  unfold rect
  infer_instance

/-- A history value that is not a mismatched prediction bundle. -/
def bundleOk : HistVal → Prop
  | .metric _ => True
  | .preds p => p.y_pred.length = p.y_true.length

instance (hv : HistVal) : Decidable (bundleOk hv) := by
  cases hv with
  | metric v => exact isTrue trivial
  | preds p => exact inferInstanceAs (Decidable (p.y_pred.length = p.y_true.length))

/-- Every prediction bundle stored anywhere in the history has equally
long `y_pred` and `y_true`. -/
def goodHist (h : History) : Prop := ∀ kv ∈ h, ∀ hv ∈ kv.2, bundleOk hv

instance (h : History) : Decidable (goodHist h) := by
  unfold goodHist
  infer_instance

/-- A tiny concrete model used to exercise the definitions: two metrics,
an `evaluate` that reveals whether sample weights were passed, and a
`predict` mapping every entry to `9`. -/
def sampleModel : KerasModel where
  metrics_names := ["loss", "acc"]
  evaluate_generator := fun _ s => [Val.num 1, Val.num (Int.ofNat s)]
  evaluate := fun _ _ _ sw _ =>
    match sw with
    | none => [Val.num 5, Val.num 6]
    | some _ => [Val.num 7, Val.num 8]
  predict := fun xs _ => xs.map (fun row => row.map (fun _ => Val.num 9))

/-- A concrete callback state around a given history, used to exercise
the definitions. -/
def sampleState (h : History) : CallbackState where
  record_predictions := false
  validation_sets := []
  epoch := []
  history := h
  verbose := 0
  batch_size := none
  record_original_history := true

/-- A concrete two-batch generator: one input array and one target array
per batch, two examples in the first batch, one in the second. -/
def sampleGen : List Batch :=
  [([[Val.num 1, Val.num 2]], [[Val.num 10, Val.num 20]]),
   ([[Val.num 3]], [[Val.num 30]])]

end AdditionalValidationSets

namespace AdditionalValidationSets

/-! ## General lemmas about the embedded operations -/

theorem optionMapM_ok {α β : Type _} (f : α → Option β) (g : α → β)
    (l : List α) (hfg : ∀ a ∈ l, f a = some (g a)) :
    l.mapM f = some (l.map g) := by
  induction l with
  | nil => rfl
  | cons a l ih =>
    rw [List.mapM_cons, hfg a (List.mem_cons_self a l),
      ih (fun a ha => hfg a (List.mem_cons_of_mem _ ha))]
    rfl

theorem exceptMapM_ok {α β : Type _} (f : α → Except String β) (g : α → β)
    (l : List α) (hfg : ∀ a ∈ l, f a = Except.ok (g a)) :
    l.mapM f = Except.ok (l.map g) := by
  induction l with
  | nil => rfl
  | cons a l ih =>
    rw [List.mapM_cons, hfg a (List.mem_cons_self a l),
      ih (fun a ha => hfg a (List.mem_cons_of_mem _ ha))]
    rfl

theorem histLookup_histAppend_self (h : History) (k : String) (v : HistVal) :
    histLookup (histAppend h k v) k = histLookup h k ++ [v] := by
  induction h with
  | nil => simp [histAppend, histLookup]
  | cons kv rest ih =>
    obtain ⟨k', vs⟩ := kv
    by_cases hk : k' = k
    · simp [histAppend, histLookup, hk]
    · simp [histAppend, histLookup, hk, ih]

theorem histLookup_histAppend_ne (h : History) (k k2 : String) (v : HistVal)
    (hne : k2 ≠ k) :
    histLookup (histAppend h k v) k2 = histLookup h k2 := by
  have hx : ¬(k = k2) := fun hx => hne hx.symm
  induction h with
  | nil => simp [histAppend, histLookup, hx]
  | cons kv rest ih =>
    obtain ⟨k', vs⟩ := kv
    by_cases hk : k' = k
    · subst hk
      simp [histAppend, histLookup, hx]
    · by_cases hk2 : k' = k2
      · subst hk2
        simp [histAppend, histLookup, hk]
      · simp [histAppend, histLookup, hk, hk2, ih]

theorem histAppend_vals (h : History) (k : String) (v : HistVal) :
    ∀ kv' ∈ histAppend h k v, ∀ hv ∈ kv'.2,
      (∃ kv ∈ h, hv ∈ kv.2) ∨ hv = v := by
  induction h with
  | nil =>
    intro kv' hkv' hv hhv
    simp [histAppend] at hkv'
    subst hkv'
    simp at hhv
    exact Or.inr hhv
  | cons kv0 rest ih =>
    obtain ⟨k', vs⟩ := kv0
    intro kv' hkv' hv hhv
    by_cases hk : k' = k
    · simp [histAppend, hk] at hkv'
      rcases hkv' with hkv' | hkv'
      · subst hkv'
        simp at hhv
        rcases hhv with hhv | hhv
        · exact Or.inl ⟨(k', vs), by simp, by simpa using hhv⟩
        · exact Or.inr hhv
      · exact Or.inl ⟨kv', by simp [hkv'], hhv⟩
    · simp [histAppend, hk] at hkv'
      rcases hkv' with hkv' | hkv'
      · subst hkv'
        exact Or.inl ⟨(k', vs), by simp, hhv⟩
      · rcases ih kv' hkv' hv hhv with ⟨kv, hkv, hmem⟩ | heq
        · exact Or.inl ⟨kv, by simp [hkv], hmem⟩
        · exact Or.inr heq

theorem goodHist_histAppend (h : History) (k : String) (v : HistVal)
    (hg : goodHist h) (hv : bundleOk v) :
    goodHist (histAppend h k v) := by
  intro kv' hkv' x hx
  rcases histAppend_vals h k v kv' hkv' x hx with ⟨kv, hkv, hmem⟩ | heq
  · exact hg kv hkv x hmem
  · rw [heq]; exact hv

end AdditionalValidationSets

namespace AdditionalValidationSets

/-! ## Claim C3 -/

/-- C3: construction raises an error exactly when some element of the
validation-set list has a length other than 2, 3 or 4, and succeeds when
every element's length is 2, 3 or 4. -/
theorem claim_C3 (vs : List (List PyObj)) (v : Nat) (bs : Option Nat)
    (roh rp : Bool) :
    (init vs v bs roh rp = Except.error "ValueError" ↔
      ∃ s ∈ vs, ¬(s.length = 2 ∨ s.length = 3 ∨ s.length = 4)) ∧
    ((∀ s ∈ vs, s.length = 2 ∨ s.length = 3 ∨ s.length = 4) →
      ∃ st, init vs v bs roh rp = Except.ok st) := by
  unfold init
  split
  next hall =>
    rw [List.all_eq_true] at hall
    constructor
    · constructor
      · intro h
        exact absurd h (by simp)
      · rintro ⟨s, hs, hbad⟩
        exact absurd (of_decide_eq_true (hall s hs)) hbad
    · intro _
      exact ⟨_, rfl⟩
  next hall =>
    constructor
    · constructor
      · intro _
        by_contra hno
        push_neg at hno
        exact hall (List.all_eq_true.mpr (fun s hs => decide_eq_true (hno s hs)))
      · intro _
        rfl
    · intro hgood
      exact absurd (List.all_eq_true.mpr (fun s hs => decide_eq_true (hgood s hs)))
        hall

/-- C3 witness: a list of one well-arity and one generator-shaped entry is
accepted, and a list holding a 1-tuple is rejected. -/
theorem claim_C3_witness :
    ∃ st, init [[PyObj.pyarr [], PyObj.pyarr [], PyObj.pystr "v"]] 0 none true
      false = Except.ok st :=
  (claim_C3 [[PyObj.pyarr [], PyObj.pyarr [], PyObj.pystr "v"]] 0 none true
    false).2 (by decide)

/-! ## Claim C9 -/

/-- C9: `on_train_begin` empties the history and the epoch list and leaves
every configuration field unchanged. -/
theorem claim_C9 (st : CallbackState) :
    (on_train_begin st).history = [] ∧ (on_train_begin st).epoch = [] ∧
    (on_train_begin st).validation_sets = st.validation_sets ∧
    (on_train_begin st).record_predictions = st.record_predictions ∧
    (on_train_begin st).verbose = st.verbose ∧
    (on_train_begin st).batch_size = st.batch_size ∧
    (on_train_begin st).record_original_history = st.record_original_history :=
  ⟨rfl, rfl, rfl, rfl, rfl, rfl, rfl⟩

/-! ## Claim C8 -/

/-- C8 counterexample: the 2-element entry `(None, "extra")` matches none
of the three documented shapes (its first component is not a
`(generator, steps)` pair), yet construction succeeds, refuting the claim
that construction validates the full shape and not merely the arity. -/
theorem claim_C8_cex :
    parseSpec [PyObj.pynone, PyObj.pystr "extra"] = none ∧
    ∃ st, init [[PyObj.pynone, PyObj.pystr "extra"]] 0 none true false =
      Except.ok st :=
  ⟨rfl, ⟨_, rfl⟩⟩

/-- C8 (amended): construction validates only the arity of each entry:
every list all of whose elements have length 2, 3 or 4 is accepted as
given, whether or not the elements match the three documented shapes. -/
theorem claim_C8_amended (vs : List (List PyObj)) (v : Nat) (bs : Option Nat)
    (roh rp : Bool)
    (h : ∀ s ∈ vs, s.length = 2 ∨ s.length = 3 ∨ s.length = 4) :
    ∃ st, init vs v bs roh rp = Except.ok st ∧ st.validation_sets = vs := by
  unfold init
  rw [if_pos (List.all_eq_true.mpr (fun s hs => decide_eq_true (h s hs)))]
  exact ⟨_, rfl, rfl⟩

/-- C8 witness: the amended claim applied to a list whose single element
has arity 2 but matches none of the three documented shapes. -/
theorem claim_C8_witness :
    ∃ st, init [[PyObj.pynone, PyObj.pynone]] 0 none true false =
      Except.ok st ∧ st.validation_sets = [[PyObj.pynone, PyObj.pynone]] :=
  claim_C8_amended [[PyObj.pynone, PyObj.pynone]] 0 none true false (by decide)

/-! ## Claim C7 -/

/-- C7 counterexample: on a state whose history is empty, `results()`
returns `None` rather than a (necessarily empty) mapping, refuting the
claim for the empty-history case. -/
theorem claim_C7_cex :
    results (sampleState []) = Except.ok none ∧
    ∀ m : List (String × HistVal),
      results (sampleState []) ≠ Except.ok (some m) := by
  refine ⟨rfl, fun m h => ?_⟩
  rw [show results (sampleState []) = Except.ok none from rfl] at h
  simp at h

/-- C7 (amended): when the history is non-empty (and its value sequences
are non-empty, as `histAppend` guarantees), `results()` returns a mapping
with exactly the history's keys, each bound to the most recently appended
value; when the history is empty it returns `None` instead of a mapping. -/
theorem claim_C7_amended (st : CallbackState)
    (hvals : ∀ kv ∈ st.history, kv.2 ≠ []) :
    (st.history = [] → results st = Except.ok none) ∧
    (st.history ≠ [] → ∃ m, results st = Except.ok (some m) ∧
      m.map Prod.fst = histKeys st.history ∧
      ∀ kv ∈ st.history, ∀ v, kv.2.getLast? = some v → (kv.1, v) ∈ m) := by
  constructor
  · intro hemp
    unfold results
    rw [if_pos hemp]
  · intro hne
    refine ⟨st.history.map
      (fun kv => (kv.1, kv.2.getLast?.getD (HistVal.metric Val.nan))), ?_, ?_, ?_⟩
    · unfold results
      rw [if_neg hne]
      have hmap := exceptMapM_ok
        (fun kv : String × List HistVal =>
          match kv.2[kv.2.length - 1]? with
          | some v => Except.ok (kv.1, v)
          | none => Except.error "IndexError")
        (fun kv => (kv.1, kv.2.getLast?.getD (HistVal.metric Val.nan)))
        st.history ?_
      · rw [hmap]
        rfl
      · intro kv hkv
        have hw := List.getLast?_eq_getLast_of_ne_nil (hvals kv hkv)
        simp only [← List.getLast?_eq_getElem?, hw, Option.getD_some]
    · rw [List.map_map]
      rfl
    · intro kv hkv v hv
      exact List.mem_map.mpr ⟨kv, hkv, by simp [hv]⟩

/-- C7 witness: the amended claim applied to a state holding one key with
two recorded values. -/
theorem claim_C7_witness :
    ∃ m, results (sampleState [("a", [HistVal.metric Val.nan,
        HistVal.metric (Val.num 2)])]) = Except.ok (some m) ∧
      m.map Prod.fst = histKeys (sampleState [("a", [HistVal.metric Val.nan,
        HistVal.metric (Val.num 2)])]).history ∧
      ∀ kv ∈ (sampleState [("a", [HistVal.metric Val.nan,
          HistVal.metric (Val.num 2)])]).history,
        ∀ v, kv.2.getLast? = some v → (kv.1, v) ∈ m :=
  (claim_C7_amended (sampleState [("a", [HistVal.metric Val.nan,
    HistVal.metric (Val.num 2)])]) (by decide)).2 (by decide)

end AdditionalValidationSets

namespace AdditionalValidationSets

/-! ## Lemmas about the recording loops -/

theorem appendAll_nil (h : History) : appendAll h [] = h := rfl

theorem appendAll_cons (h : History) (kv : String × HistVal)
    (kvs : List (String × HistVal)) :
    appendAll h (kv :: kvs) = appendAll (histAppend h kv.1 kv.2) kvs := rfl

theorem appendAll_append (h : History) (kvs kvs2 : List (String × HistVal)) :
    appendAll h (kvs ++ kvs2) = appendAll (appendAll h kvs) kvs2 := by
  induction kvs generalizing h with
  | nil => rfl
  | cons kv kvs ih => simp [appendAll_cons, ih]

theorem zipWith_map_same {α γ δ : Type _} (f : α → γ → δ) (g : α → γ)
    (l : List α) : List.zipWith f l (l.map g) = l.map (fun a => f a (g a)) := by
  induction l with
  | nil => rfl
  | cons a l ih => simp [ih]

theorem appendMetricsFrom_ok (pfx name : String) (names : List String) :
    ∀ (results : List Val) (i : Nat) (h : History),
      i + results.length ≤ names.length →
      appendMetricsFrom pfx name names i results h =
        (appendAll h (List.zipWith
          (fun mn r => (pfx ++ name ++ "_" ++ mn, HistVal.metric r))
          (names.drop i) results), none) := by
  intro results
  induction results with
  | nil =>
    intro i h _
    simp [appendMetricsFrom, appendAll]
  | cons r rs ih =>
    intro i h hle
    have hi : i < names.length := by
      simp only [List.length_cons] at hle
      omega
    rw [List.drop_eq_getElem_cons hi]
    simp only [appendMetricsFrom, List.getElem?_eq_getElem hi,
      List.zipWith_cons_cons]
    rw [appendAll_cons]
    exact ih (i + 1) _ (by simp only [List.length_cons] at hle; omega)

theorem appendMetrics_ok (pfx name : String) (names : List String)
    (results : List Val) (h : History)
    (hlen : results.length ≤ names.length) :
    appendMetrics pfx name names results h =
      (appendAll h (List.zipWith
        (fun mn r => (pfx ++ name ++ "_" ++ mn, HistVal.metric r))
        names results), none) := by
  have := appendMetricsFrom_ok pfx name names results 0 h (by omega)
  simpa [appendMetrics] using this

/-! ## Behaviour with a `None` model to evaluate (claim C2) -/

theorem processSet_noneModel (pfx : String) (selfModel : KerasModel)
    (recp : Bool) (bs : Option Nat) (h : History) (spec : ParsedSpec) :
    processSet pfx selfModel none recp bs h spec =
      (appendAll h ((if recp then [(pfx ++ spec.name ++ "_predictions",
          HistVal.preds ⟨[], []⟩)] else []) ++
        selfModel.metrics_names.map (fun mn =>
          (pfx ++ spec.name ++ "_" ++ mn, HistVal.metric Val.nan))), none) := by
  cases recp with
  | false =>
    simp only [processSet, Bool.false_eq_true, if_false, List.nil_append]
    rw [appendMetrics_ok _ _ _ _ _ (by simp), zipWith_map_same]
  | true =>
    simp only [processSet, if_true, List.cons_append, List.nil_append]
    rw [appendAll_cons]
    rw [appendMetrics_ok _ _ _ _ _ (by simp), zipWith_map_same]

theorem processSets_noneModel_ok (pfx : String) (selfModel : KerasModel)
    (recp : Bool) (bs : Option Nat) :
    ∀ (sets : List (List PyObj)) (h : History),
      (∀ raw ∈ sets, (parseSpec raw).isSome = true) →
      (processSets pfx selfModel none recp bs h sets).2 = none := by
  intro sets
  induction sets with
  | nil => intro h _; rfl
  | cons raw rest ih =>
    intro h hp
    obtain ⟨spec, hspec⟩ :=
      Option.isSome_iff_exists.mp (hp raw (List.mem_cons_self raw rest))
    simp only [processSets, hspec]
    rw [processSet_noneModel]
    exact ih _ (fun r hr => hp r (List.mem_cons_of_mem _ hr))

theorem on_epoch_end_snd (st : CallbackState) (selfModel : KerasModel)
    (model? : Option KerasModel) (pfx : String) (e : Nat)
    (logs : Option (List (String × Val))) :
    (on_epoch_end st selfModel model? pfx e logs).2 =
      (if st.validation_sets.length = 0 then none
       else (processSets pfx selfModel model? st.record_predictions
         st.batch_size
         (if st.record_original_history = true
          then recordLogs st.history (logs.getD []) else st.history)
         st.validation_sets).2) := by
  unfold on_epoch_end
  cases hroh : st.record_original_history <;>
    by_cases hlen : st.validation_sets.length = 0 <;>
      simp [hroh, hlen]

theorem on_epoch_end_hist (st : CallbackState) (selfModel : KerasModel)
    (model? : Option KerasModel) (pfx : String) (e : Nat)
    (logs : Option (List (String × Val))) :
    (on_epoch_end st selfModel model? pfx e logs).1.history =
      (if st.validation_sets.length = 0
       then (if st.record_original_history = true
          then recordLogs st.history (logs.getD []) else st.history)
       else (processSets pfx selfModel model? st.record_predictions
         st.batch_size
         (if st.record_original_history = true
          then recordLogs st.history (logs.getD []) else st.history)
         st.validation_sets).1) := by
  unfold on_epoch_end
  cases hroh : st.record_original_history <;>
    by_cases hlen : st.validation_sets.length = 0 <;>
      simp [hroh, hlen]

/-- C2: with a `None` model to evaluate and destructurable validation
sets, the epoch-end call raises nothing, and each validation set gets one
NaN appended per entry of the trained model's `metrics_names` under the
usual metric keys, plus — when prediction recording is enabled — an
empty prediction bundle under the `_predictions` key. -/
theorem claim_C2 (st : CallbackState) (selfModel : KerasModel) (pfx : String)
    (e : Nat) (logs : Option (List (String × Val)))
    (hparse : ∀ raw ∈ st.validation_sets, (parseSpec raw).isSome = true) :
    (on_epoch_end st selfModel none pfx e logs).2 = none ∧
    ∀ (recp : Bool) (bs : Option Nat) (h : History) (spec : ParsedSpec),
      processSet pfx selfModel none recp bs h spec =
        (appendAll h ((if recp then [(pfx ++ spec.name ++ "_predictions",
            HistVal.preds ⟨[], []⟩)] else []) ++
          selfModel.metrics_names.map (fun mn =>
            (pfx ++ spec.name ++ "_" ++ mn, HistVal.metric Val.nan))), none) := by
  constructor
  · rw [on_epoch_end_snd]
    by_cases hlen : st.validation_sets.length = 0
    · rw [if_pos hlen]
    · rw [if_neg hlen]
      exact processSets_noneModel_ok _ _ _ _ _ _ hparse
  · intro recp bs h spec
    exact processSet_noneModel pfx selfModel recp bs h spec

/-- C2 witness: a state with one 3-tuple validation set, no model to
evaluate, and prediction recording on. -/
theorem claim_C2_witness :
    (on_epoch_end { sampleState [] with validation_sets :=
        [[PyObj.pyarr [[Val.num 1]], PyObj.pyarr [[Val.num 2]],
          PyObj.pystr "v"]] } sampleModel none "" 0 none).2 = none ∧
    ∀ (recp : Bool) (bs : Option Nat) (h : History) (spec : ParsedSpec),
      processSet "" sampleModel none recp bs h spec =
        (appendAll h ((if recp then [("" ++ spec.name ++ "_predictions",
            HistVal.preds ⟨[], []⟩)] else []) ++
          sampleModel.metrics_names.map (fun mn =>
            ("" ++ spec.name ++ "_" ++ mn, HistVal.metric Val.nan))), none) :=
  claim_C2 { sampleState [] with validation_sets :=
      [[PyObj.pyarr [[Val.num 1]], PyObj.pyarr [[Val.num 2]],
        PyObj.pystr "v"]] } sampleModel "" 0 none (by decide)

end AdditionalValidationSets

namespace AdditionalValidationSets

/-! ## Behaviour with a present model (claims C4 and C1) -/

theorem processSets_single (pfx : String) (sm : KerasModel)
    (m? : Option KerasModel) (recp : Bool) (bs : Option Nat) (h : History)
    (spec : ParsedSpec) (raw : List PyObj) (hp : parseSpec raw = some spec) :
    processSets pfx sm m? recp bs h [raw] =
      processSet pfx sm m? recp bs h spec := by
  simp only [processSets, hp]
  rcases hr : processSet pfx sm m? recp bs h spec with ⟨h2, err⟩
  cases err <;> rfl

theorem processSet_someModel (pfx : String) (selfModel m : KerasModel)
    (bs : Option Nat) (h : History) (spec : ParsedSpec) (p : Predictions)
    (hp : collectPredictions m spec = Except.ok p) :
    processSet pfx selfModel (some m) true bs h spec =
      appendMetrics pfx spec.name selfModel.metrics_names
        (evalResults m bs spec)
        (histAppend h (pfx ++ spec.name ++ "_predictions")
          (HistVal.preds p)) ∧
    processSet pfx selfModel (some m) false bs h spec =
      appendMetrics pfx spec.name selfModel.metrics_names
        (evalResults m bs spec) h := by
  cases spec <;> simp only [collectPredictions] at hp <;> constructor <;>
    simp only [processSet, evalResults, ParsedSpec.name, hp] <;> rfl

theorem processSet_someModel_noRec (pfx : String) (selfModel m : KerasModel)
    (bs : Option Nat) (h : History) (spec : ParsedSpec) :
    processSet pfx selfModel (some m) false bs h spec =
      appendMetrics pfx spec.name selfModel.metrics_names
        (evalResults m bs spec) h := by
  cases spec <;> rfl

/-- C4: the evaluate operation invoked matches the shape of the
destructured validation set: a 2-tuple `((generator, steps), name)` is
scored with `evaluate_generator(generator, steps)`, a 3-tuple
`(data, targets, name)` with `evaluate` on the data and targets with no
sample weights, a 4-tuple `(data, targets, weights, name)` with
`evaluate` carrying the sample weights. -/
theorem claim_C4 (pfx : String) (selfModel m : KerasModel) (bs : Option Nat)
    (h : History) :
    (∀ (g : List Batch) (s : Nat) (n : String),
      processSets pfx selfModel (some m) false bs h
          [[PyObj.pypair (PyObj.pygen g) (PyObj.pynat s), PyObj.pystr n]] =
        appendMetrics pfx n selfModel.metrics_names
          (m.evaluate_generator g s) h) ∧
    (∀ (d t : Arr) (n : String),
      processSets pfx selfModel (some m) false bs h
          [[PyObj.pyarr d, PyObj.pyarr t, PyObj.pystr n]] =
        appendMetrics pfx n selfModel.metrics_names
          (m.evaluate d t 0 none bs) h) ∧
    (∀ (d t w : Arr) (n : String),
      processSets pfx selfModel (some m) false bs h
          [[PyObj.pyarr d, PyObj.pyarr t, PyObj.pyarr w, PyObj.pystr n]] =
        appendMetrics pfx n selfModel.metrics_names
          (m.evaluate d t 0 (some w) bs) h) := by
  refine ⟨fun g s n => ?_, fun d t n => ?_, fun d t w n => ?_⟩
  · rw [processSets_single pfx selfModel (some m) false bs h
      (ParsedSpec.genSpec g s n)
      [PyObj.pypair (PyObj.pygen g) (PyObj.pynat s), PyObj.pystr n] rfl]
    exact processSet_someModel_noRec pfx selfModel m bs h _
  · rw [processSets_single pfx selfModel (some m) false bs h
      (ParsedSpec.arrSpec d t n)
      [PyObj.pyarr d, PyObj.pyarr t, PyObj.pystr n] rfl]
    exact processSet_someModel_noRec pfx selfModel m bs h _
  · rw [processSets_single pfx selfModel (some m) false bs h
      (ParsedSpec.arrWSpec d t w n)
      [PyObj.pyarr d, PyObj.pyarr t, PyObj.pyarr w, PyObj.pystr n] rfl]
    exact processSet_someModel_noRec pfx selfModel m bs h _

/-- C1: with a model to evaluate, every metric value returned by the
evaluate call is appended under the key
`pfx + name + '_' + metrics_names[i]` (positions aligned), and — when
prediction recording is enabled — the collected prediction bundle is
appended under `pfx + name + '_predictions'`. -/
theorem claim_C1 (pfx : String) (selfModel m : KerasModel) (bs : Option Nat)
    (h : History) (spec : ParsedSpec) (p : Predictions)
    (hp : collectPredictions m spec = Except.ok p)
    (hlen : (evalResults m bs spec).length ≤
      selfModel.metrics_names.length) :
    processSet pfx selfModel (some m) true bs h spec =
      (appendAll h ((pfx ++ spec.name ++ "_predictions", HistVal.preds p) ::
        List.zipWith
          (fun mn r => (pfx ++ spec.name ++ "_" ++ mn, HistVal.metric r))
          selfModel.metrics_names (evalResults m bs spec)), none) ∧
    processSet pfx selfModel (some m) false bs h spec =
      (appendAll h (List.zipWith
          (fun mn r => (pfx ++ spec.name ++ "_" ++ mn, HistVal.metric r))
          selfModel.metrics_names (evalResults m bs spec)), none) := by
  obtain ⟨h1, h2⟩ := processSet_someModel pfx selfModel m bs h spec p hp
  constructor
  · rw [h1, appendAll_cons, appendMetrics_ok _ _ _ _ _ hlen]
  · rw [h2, appendMetrics_ok _ _ _ _ _ hlen]

/-- C1 witness: the sample model on a concrete 3-tuple validation set
with prediction recording enabled. -/
theorem claim_C1_witness :
    processSet "" sampleModel (some sampleModel) true none []
        (ParsedSpec.arrSpec [[Val.num 1, Val.num 2]] [[Val.num 4, Val.num 5]]
          "v") =
      (appendAll [] (("" ++ "v" ++ "_predictions", HistVal.preds
          ⟨[[Val.num 9], [Val.num 9]], [[Val.num 4], [Val.num 5]]⟩) ::
        List.zipWith
          (fun mn r => ("" ++ "v" ++ "_" ++ mn, HistVal.metric r))
          sampleModel.metrics_names
          (evalResults sampleModel none
            (ParsedSpec.arrSpec [[Val.num 1, Val.num 2]]
              [[Val.num 4, Val.num 5]] "v"))), none) :=
  (claim_C1 "" sampleModel sampleModel none []
    (ParsedSpec.arrSpec [[Val.num 1, Val.num 2]] [[Val.num 4, Val.num 5]] "v")
    ⟨[[Val.num 9], [Val.num 9]], [[Val.num 4], [Val.num 5]]⟩
    rfl (by decide)).1

end AdditionalValidationSets

namespace AdditionalValidationSets

/-! ## The length assertions on prediction bundles (claim C6) -/

theorem arrPredictions_mismatch (m : KerasModel) (d t : Arr)
    (hne : (zipStar t).length ≠ (zipStar (m.predict d none)).length) :
    arrPredictions m d t = Except.error "AssertionError" := by
  unfold arrPredictions
  rw [if_neg hne]

theorem genPredictions_mismatch (m : KerasModel) (gen : List Batch)
    (steps : Nat) (batches : List Batch) (rawPred : List Arr)
    (yp yt : List (List Val))
    (h1 : takeBatches gen steps = Except.ok batches)
    (h2 : batches.mapM (predictBatch m) = Except.ok rawPred)
    (h3 : reformatAll rawPred = some yp)
    (h4 : reformatAll (batches.map (fun b => b.2)) = some yt)
    (hne : yt.length ≠ yp.length) :
    genPredictions m gen steps = Except.error "AssertionError" := by
  simp only [genPredictions, h1, h2, h3, h4]
  rw [if_neg hne]

theorem genPredictions_ok_len (m : KerasModel) (gen : List Batch)
    (steps : Nat) (p : Predictions)
    (hp : genPredictions m gen steps = Except.ok p) :
    p.y_true.length = p.y_pred.length := by
  unfold genPredictions at hp
  split at hp
  · exact absurd hp (by simp)
  · split at hp
    · exact absurd hp (by simp)
    · split at hp
      · exact absurd hp (by simp)
      · exact absurd hp (by simp)
      · split at hp
        next hlen =>
          obtain rfl := Except.ok.inj hp
          exact hlen
        next hlen => exact absurd hp (by simp)

theorem arrPredictions_ok_len (m : KerasModel) (d t : Arr) (p : Predictions)
    (hp : arrPredictions m d t = Except.ok p) :
    p.y_true.length = p.y_pred.length := by
  unfold arrPredictions at hp
  split at hp
  next hlen =>
    obtain rfl := Except.ok.inj hp
    exact hlen
  next hlen => exact absurd hp (by simp)

theorem goodHist_appendMetricsFrom (pfx name : String) (names : List String) :
    ∀ (results : List Val) (i : Nat) (h : History), goodHist h →
      goodHist (appendMetricsFrom pfx name names i results h).1 := by
  intro results
  induction results with
  | nil => intro i h hg; exact hg
  | cons r rs ih =>
    intro i h hg
    simp only [appendMetricsFrom]
    split
    · exact hg
    · exact ih (i + 1) _ (goodHist_histAppend _ _ _ hg trivial)

theorem goodHist_appendAll (kvs : List (String × HistVal)) :
    ∀ (h : History), goodHist h → (∀ kv ∈ kvs, bundleOk kv.2) →
      goodHist (appendAll h kvs) := by
  induction kvs with
  | nil => intro h hg _; exact hg
  | cons kv kvs ih =>
    intro h hg hok
    rw [appendAll_cons]
    exact ih _ (goodHist_histAppend _ _ _ hg (hok kv (List.mem_cons_self kv kvs)))
      (fun kv2 hkv2 => hok kv2 (List.mem_cons_of_mem _ hkv2))

theorem collectPredictions_ok_len (m : KerasModel) (spec : ParsedSpec)
    (p : Predictions) (hc : collectPredictions m spec = Except.ok p) :
    bundleOk (HistVal.preds p) := by
  cases spec <;> simp only [collectPredictions] at hc
  · exact (genPredictions_ok_len _ _ _ _ hc).symm
  · exact (arrPredictions_ok_len _ _ _ _ hc).symm
  · exact (arrPredictions_ok_len _ _ _ _ hc).symm

theorem processSet_someModel_err (pfx : String) (selfModel m : KerasModel)
    (bs : Option Nat) (h : History) (spec : ParsedSpec) (e : String)
    (hc : collectPredictions m spec = Except.error e) :
    processSet pfx selfModel (some m) true bs h spec = (h, some e) := by
  cases spec <;> simp only [collectPredictions] at hc <;> simp [processSet, hc]

theorem goodHist_processSet (pfx : String) (sm : KerasModel)
    (m? : Option KerasModel) (recp : Bool) (bs : Option Nat) (h : History)
    (spec : ParsedSpec) (hg : goodHist h) :
    goodHist (processSet pfx sm m? recp bs h spec).1 := by
  rcases m? with _ | m
  · rw [processSet_noneModel]
    refine goodHist_appendAll _ _ hg ?_
    intro kv hkv
    rcases List.mem_append.mp hkv with hkv | hkv
    · rcases recp
      · simp at hkv
      · simp at hkv
        rw [hkv]
        exact rfl
    · obtain ⟨mn, hmn, rfl⟩ := List.mem_map.mp hkv
      exact trivial
  · rcases recp
    · rw [processSet_someModel_noRec]
      exact goodHist_appendMetricsFrom _ _ _ _ 0 h hg
    · rcases hc : collectPredictions m spec with e | p
      · rw [processSet_someModel_err _ _ _ _ _ _ _ hc]
        exact hg
      · rw [(processSet_someModel pfx sm m bs h spec p hc).1]
        refine goodHist_appendMetricsFrom _ _ _ _ 0 _ ?_
        exact goodHist_histAppend _ _ _ hg
          (collectPredictions_ok_len m spec p hc)

theorem goodHist_recordLogs (logs : List (String × Val)) :
    ∀ (h : History), goodHist h → goodHist (recordLogs h logs) := by
  induction logs with
  | nil => intro h hg; exact hg
  | cons kv rest ih =>
    intro h hg
    exact ih _ (goodHist_histAppend _ _ _ hg trivial)

theorem goodHist_processSets (pfx : String) (sm : KerasModel)
    (m? : Option KerasModel) (recp : Bool) (bs : Option Nat) :
    ∀ (sets : List (List PyObj)) (h : History), goodHist h →
      goodHist (processSets pfx sm m? recp bs h sets).1 := by
  intro sets
  induction sets with
  | nil => intro h hg; exact hg
  | cons raw rest ih =>
    intro h hg
    rcases hp : parseSpec raw with _ | spec
    · simp only [processSets, hp]
      exact hg
    · simp only [processSets, hp]
      have hps := goodHist_processSet pfx sm m? recp bs h spec hg
      rcases hr : processSet pfx sm m? recp bs h spec with ⟨h2, err⟩
      rw [hr] at hps
      cases err
      · exact ih h2 hps
      · exact hps

theorem goodHist_on_epoch_end (st : CallbackState) (sm : KerasModel)
    (m? : Option KerasModel) (pfx : String) (e : Nat)
    (logs : Option (List (String × Val))) (hg : goodHist st.history) :
    goodHist (on_epoch_end st sm m? pfx e logs).1.history := by
  rw [on_epoch_end_hist]
  have hg2 : goodHist (if st.record_original_history = true
      then recordLogs st.history (logs.getD []) else st.history) := by
    split
    · exact goodHist_recordLogs _ _ hg
    · exact hg
  split
  · exact hg2
  · exact goodHist_processSets _ _ _ _ _ _ _ hg2

/-- C6: the reconstructed `y_pred`/`y_true` sequences are checked for
equal length by an assertion before any recording: a mismatch turns the
epoch-end call into an `AssertionError` (in both the generator and the
array branch), a successfully collected bundle always has equal lengths,
and consequently every prediction bundle ever stored in the history has
equally long `y_pred` and `y_true`. -/
theorem claim_C6 :
    (∀ (m : KerasModel) (d t : Arr),
      (zipStar t).length ≠ (zipStar (m.predict d none)).length →
      arrPredictions m d t = Except.error "AssertionError") ∧
    (∀ (m : KerasModel) (gen : List Batch) (steps : Nat)
        (batches : List Batch) (rawPred : List Arr) (yp yt : List (List Val)),
      takeBatches gen steps = Except.ok batches →
      batches.mapM (predictBatch m) = Except.ok rawPred →
      reformatAll rawPred = some yp →
      reformatAll (batches.map (fun b => b.2)) = some yt →
      yt.length ≠ yp.length →
      genPredictions m gen steps = Except.error "AssertionError") ∧
    (∀ (m : KerasModel) (gen : List Batch) (steps : Nat) (p : Predictions),
      genPredictions m gen steps = Except.ok p →
      p.y_true.length = p.y_pred.length) ∧
    (∀ (m : KerasModel) (d t : Arr) (p : Predictions),
      arrPredictions m d t = Except.ok p →
      p.y_true.length = p.y_pred.length) ∧
    (∀ (pfx : String) (sm : KerasModel) (m? : Option KerasModel)
        (recp : Bool) (bs : Option Nat) (h : History) (spec : ParsedSpec),
      goodHist h → goodHist (processSet pfx sm m? recp bs h spec).1) ∧
    (∀ (st : CallbackState) (sm : KerasModel) (m? : Option KerasModel)
        (pfx : String) (e : Nat) (logs : Option (List (String × Val))),
      goodHist st.history →
      goodHist (on_epoch_end st sm m? pfx e logs).1.history) :=
  ⟨arrPredictions_mismatch, genPredictions_mismatch, genPredictions_ok_len,
   arrPredictions_ok_len, goodHist_processSet, goodHist_on_epoch_end⟩

/-- C6 witness: a concrete mismatch (two predictions against one target)
fails with `AssertionError`, and the invariant holds across a concrete
epoch-end processing step. -/
theorem claim_C6_witness :
    arrPredictions sampleModel [[Val.num 1, Val.num 2]] [[Val.num 4]] =
      Except.error "AssertionError" ∧
    goodHist (processSet "" sampleModel (some sampleModel) true none []
      (ParsedSpec.arrSpec [[Val.num 1]] [[Val.num 4]] "v")).1 :=
  ⟨claim_C6.1 sampleModel [[Val.num 1, Val.num 2]] [[Val.num 4]] (by decide),
   claim_C6.2.2.2.2.1 "" sampleModel (some sampleModel) true none []
     (ParsedSpec.arrSpec [[Val.num 1]] [[Val.num 4]] "v") (by decide)⟩

end AdditionalValidationSets

namespace AdditionalValidationSets

/-! ## Per-example reconstruction of generator predictions (claim C5) -/

theorem rect_arrSize (a : Arr) (n : Nat) (hr : rect a n) : arrSize a = n := by
  obtain ⟨hne, hlen⟩ := hr
  obtain ⟨x, xs, rfl⟩ := List.exists_cons_of_ne_nil hne
  simpa [arrSize] using hlen x (List.mem_cons_self x xs)

theorem reformatBatch_rect (a : Arr) (n : Nat) (hr : rect a n) :
    reformatBatch a = some ((List.range n).map (exampleRow a)) := by
  obtain ⟨hne, hlen⟩ := hr
  obtain ⟨x, xs, rfl⟩ := List.exists_cons_of_ne_nil hne
  have hx : x.length = n := hlen x (List.mem_cons_self x xs)
  simp only [reformatBatch, List.head?_cons, hx]
  apply optionMapM_ok
  intro idx hidx
  unfold gatherExample exampleRow
  apply optionMapM_ok
  intro out hout
  have hlt : idx < out.length := by
    rw [hlen out hout]
    exact List.mem_range.mp hidx
  simp [List.getD_eq_getElem?_getD, List.getElem?_eq_getElem hlt]

theorem reformatAll_rect (batches : List Arr)
    (hr : ∀ a ∈ batches, rect a (arrSize a)) :
    reformatAll batches =
      some ((batches.map (fun a => (List.range (arrSize a)).map
        (exampleRow a))).flatten) := by
  unfold reformatAll
  rw [optionMapM_ok reformatBatch
    (fun a => (List.range (arrSize a)).map (exampleRow a)) batches
    (fun a ha => reformatBatch_rect a (arrSize a) (hr a ha))]

theorem flatten_getElem? {α : Type _} :
    ∀ (ls : List (List α)) (b : Nat) (L : List α), ls[b]? = some L →
      ∀ j, j < L.length →
        ls.flatten[((ls.take b).map List.length).sum + j]? = L[j]? := by
  intro ls
  induction ls with
  | nil => intro b L hL; simp at hL
  | cons x tl ih =>
    intro b L hL j hj
    cases b with
    | zero =>
      obtain rfl : x = L := by simpa using hL
      simp only [List.take_zero, List.map_nil, List.sum_nil, Nat.zero_add,
        List.flatten_cons]
      exact List.getElem?_append_left hj
    | succ b =>
      have hL2 : tl[b]? = some L := by simpa using hL
      simp only [List.take_succ_cons, List.map_cons, List.sum_cons,
        List.flatten_cons]
      rw [Nat.add_assoc, List.getElem?_append_right (Nat.le_add_right _ _),
        Nat.add_sub_cancel_left]
      exact ih b L hL2 j hj

theorem genPredictions_explicit (m : KerasModel) (gen : List Batch)
    (steps : Nat) (H1 : steps ≤ gen.length)
    (Hxs : ∀ b ∈ gen.take steps, b.1 ≠ [])
    (Hpred : ∀ b ∈ gen.take steps, rect (predOut m b) (trueSize b))
    (Htrue : ∀ b ∈ gen.take steps, rect b.2 (trueSize b)) :
    genPredictions m gen steps = Except.ok
      ⟨((gen.take steps).map (fun b =>
          (List.range (trueSize b)).map (exampleRow (predOut m b)))).flatten,
       ((gen.take steps).map (fun b =>
          (List.range (trueSize b)).map (exampleRow b.2))).flatten⟩ := by
  have htb : takeBatches gen steps = Except.ok (gen.take steps) := by
    unfold takeBatches
    rw [if_pos H1]
  have hmp : (gen.take steps).mapM (predictBatch m) =
      Except.ok ((gen.take steps).map (predOut m)) := by
    apply exceptMapM_ok
    intro b hb
    obtain ⟨x, xs, hx⟩ := List.exists_cons_of_ne_nil (Hxs b hb)
    unfold predictBatch predOut
    rw [hx]
    rfl
  have hrp : reformatAll ((gen.take steps).map (predOut m)) =
      some (((gen.take steps).map (fun b =>
        (List.range (trueSize b)).map (exampleRow (predOut m b)))).flatten) := by
    rw [reformatAll_rect _ (fun a ha => ?_)]
    · have hmaps : ((gen.take steps).map (predOut m)).map
          (fun a => (List.range (arrSize a)).map (exampleRow a)) =
          (gen.take steps).map (fun b =>
            (List.range (trueSize b)).map (exampleRow (predOut m b))) := by
        rw [List.map_map]
        apply List.map_congr_left
        intro b hb
        simp only [Function.comp_def]
        rw [rect_arrSize _ _ (Hpred b hb)]
      rw [hmaps]
    · obtain ⟨b, hb, rfl⟩ := List.mem_map.mp ha
      have h1 := Hpred b hb
      rw [rect_arrSize _ _ h1]
      exact h1
  have hrt : reformatAll ((gen.take steps).map (fun b => b.2)) =
      some (((gen.take steps).map (fun b =>
        (List.range (trueSize b)).map (exampleRow b.2))).flatten) := by
    rw [reformatAll_rect _ (fun a ha => ?_)]
    · have hmaps : ((gen.take steps).map (fun b => b.2)).map
          (fun a => (List.range (arrSize a)).map (exampleRow a)) =
          (gen.take steps).map (fun b =>
            (List.range (trueSize b)).map (exampleRow b.2)) := by
        rw [List.map_map]
        apply List.map_congr_left
        intro b hb
        rfl
      rw [hmaps]
    · obtain ⟨b, hb, rfl⟩ := List.mem_map.mp ha
      have h1 := Htrue b hb
      rw [rect_arrSize _ _ h1]
      exact h1
  have hlen : (((gen.take steps).map (fun b =>
      (List.range (trueSize b)).map (exampleRow b.2))).flatten).length =
      (((gen.take steps).map (fun b =>
      (List.range (trueSize b)).map (exampleRow (predOut m b)))).flatten).length := by
    simp [List.length_flatten, List.map_map, Function.comp_def]
  simp only [genPredictions, htb, hmp, hrp, hrt]
  rw [if_pos hlen]

/-- C5: for a generator validation set (well-formed batches: non-empty
inputs, rectangular targets, and predictions matching the target batch
size), the collected bundle holds `y_pred` and `y_true` in per-example
order: the example at index `j` of batch `b` sits at position
`(sum of the sizes of the batches before b) + j` of both sequences, and
both sequences have length equal to the total example count. -/
theorem claim_C5 (m : KerasModel) (gen : List Batch) (steps : Nat)
    (H1 : steps ≤ gen.length)
    (Hxs : ∀ b ∈ gen.take steps, b.1 ≠ [])
    (Hpred : ∀ b ∈ gen.take steps, rect (predOut m b) (trueSize b))
    (Htrue : ∀ b ∈ gen.take steps, rect b.2 (trueSize b)) :
    ∃ p, genPredictions m gen steps = Except.ok p ∧
      p.y_pred.length = ((gen.take steps).map trueSize).sum ∧
      p.y_true.length = ((gen.take steps).map trueSize).sum ∧
      ∀ (bIdx : Nat) (b : Batch), (gen.take steps)[bIdx]? = some b →
        ∀ j, j < trueSize b →
          p.y_pred[(((gen.take steps).take bIdx).map trueSize).sum + j]? =
            some (exampleRow (predOut m b) j) ∧
          p.y_true[(((gen.take steps).take bIdx).map trueSize).sum + j]? =
            some (exampleRow b.2 j) := by
  refine ⟨_, genPredictions_explicit m gen steps H1 Hxs Hpred Htrue,
    ?_, ?_, ?_⟩
  · simp [List.length_flatten, List.map_map, Function.comp_def]
  · simp [List.length_flatten, List.map_map, Function.comp_def]
  · intro bIdx b hb j hj
    constructor
    · have hmem : ((gen.take steps).map (fun b =>
          (List.range (trueSize b)).map (exampleRow (predOut m b))))[bIdx]? =
          some ((List.range (trueSize b)).map (exampleRow (predOut m b))) := by
        rw [List.getElem?_map, hb]
        rfl
      have hjlen : j < ((List.range (trueSize b)).map
          (exampleRow (predOut m b))).length := by simpa using hj
      have hpos := flatten_getElem? _ bIdx _ hmem j hjlen
      have hsum : (((((gen.take steps).map (fun b =>
          (List.range (trueSize b)).map (exampleRow (predOut m b))))).take
            bIdx).map List.length).sum =
          (((gen.take steps).take bIdx).map trueSize).sum := by
        rw [← List.map_take, List.map_map]
        simp [Function.comp_def]
      rw [hsum] at hpos
      rw [hpos, List.getElem?_map, List.getElem?_range hj]
      rfl
    · have hmem : ((gen.take steps).map (fun b =>
          (List.range (trueSize b)).map (exampleRow b.2)))[bIdx]? =
          some ((List.range (trueSize b)).map (exampleRow b.2)) := by
        rw [List.getElem?_map, hb]
        rfl
      have hjlen : j < ((List.range (trueSize b)).map
          (exampleRow b.2)).length := by simpa using hj
      have hpos := flatten_getElem? _ bIdx _ hmem j hjlen
      have hsum : (((((gen.take steps).map (fun b =>
          (List.range (trueSize b)).map (exampleRow b.2)))).take
            bIdx).map List.length).sum =
          (((gen.take steps).take bIdx).map trueSize).sum := by
        rw [← List.map_take, List.map_map]
        simp [Function.comp_def]
      rw [hsum] at hpos
      rw [hpos, List.getElem?_map, List.getElem?_range hj]
      rfl

/-- C5 witness: the sample model over the concrete two-batch generator
(two examples then one example). -/
theorem claim_C5_witness :
    ∃ p, genPredictions sampleModel sampleGen 2 = Except.ok p ∧
      p.y_pred.length = ((sampleGen.take 2).map trueSize).sum ∧
      p.y_true.length = ((sampleGen.take 2).map trueSize).sum ∧
      ∀ (bIdx : Nat) (b : Batch), (sampleGen.take 2)[bIdx]? = some b →
        ∀ j, j < trueSize b →
          p.y_pred[(((sampleGen.take 2).take bIdx).map trueSize).sum + j]? =
            some (exampleRow (predOut sampleModel b) j) ∧
          p.y_true[(((sampleGen.take 2).take bIdx).map trueSize).sum + j]? =
            some (exampleRow b.2 j) :=
  claim_C5 sampleModel sampleGen 2 (by decide) (by decide) (by decide)
    (by decide)

end AdditionalValidationSets

namespace AdditionalValidationSets

/-! ## Recording of the framework logs (claim C10) -/

theorem recordLogs_nil (h : History) : recordLogs h [] = h := rfl

theorem recordLogs_cons (h : History) (kv : String × Val)
    (rest : List (String × Val)) :
    recordLogs h (kv :: rest) =
      recordLogs (histAppend h kv.1 (HistVal.metric kv.2)) rest := rfl

theorem histLookup_recordLogs_not_mem (kvs : List (String × Val)) :
    ∀ (h : History) (k : String), k ∉ kvs.map Prod.fst →
      histLookup (recordLogs h kvs) k = histLookup h k := by
  induction kvs with
  | nil => intro h k _; rfl
  | cons kv rest ih =>
    intro h k hk
    simp only [List.map_cons, List.mem_cons, not_or] at hk
    rw [recordLogs_cons, ih _ k hk.2]
    exact histLookup_histAppend_ne _ _ _ _ hk.1

theorem histLookup_recordLogs_mem (kvs : List (String × Val))
    (hnd : (kvs.map Prod.fst).Nodup) :
    ∀ (h : History), ∀ kv ∈ kvs,
      histLookup (recordLogs h kvs) kv.1 =
        histLookup h kv.1 ++ [HistVal.metric kv.2] := by
  induction kvs with
  | nil => intro h kv hkv; simp at hkv
  | cons kv0 rest ih =>
    intro h kv hkv
    have hnd' := hnd
    rw [List.map_cons, List.nodup_cons] at hnd'
    obtain ⟨hni, hnd2⟩ := hnd'
    rw [recordLogs_cons]
    rcases List.mem_cons.mp hkv with rfl | hkv2
    · rw [histLookup_recordLogs_not_mem rest _ kv.1 hni,
        histLookup_histAppend_self]
    · have hne : kv.1 ≠ kv0.1 := by
        intro hcontra
        exact hni (hcontra ▸ List.mem_map_of_mem Prod.fst hkv2)
      rw [ih hnd2 _ kv hkv2, histLookup_histAppend_ne _ _ _ _ hne]

theorem histLookup_histAppend_extend (h : History) (k : String) (v : HistVal)
    (k2 : String) :
    ∃ t, histLookup (histAppend h k v) k2 = histLookup h k2 ++ t := by
  by_cases hk : k2 = k
  · subst hk
    exact ⟨[v], histLookup_histAppend_self _ _ _⟩
  · exact ⟨[], by rw [histLookup_histAppend_ne _ _ _ _ hk, List.append_nil]⟩

theorem appendAll_extend (kvs : List (String × HistVal)) :
    ∀ (h : History) (k : String),
      ∃ t, histLookup (appendAll h kvs) k = histLookup h k ++ t := by
  induction kvs with
  | nil => intro h k; exact ⟨[], by simp [appendAll_nil]⟩
  | cons kv rest ih =>
    intro h k
    rw [appendAll_cons]
    obtain ⟨t1, ht1⟩ := histLookup_histAppend_extend h kv.1 kv.2 k
    obtain ⟨t2, ht2⟩ := ih (histAppend h kv.1 kv.2) k
    exact ⟨t1 ++ t2, by rw [ht2, ht1, List.append_assoc]⟩

theorem appendMetricsFrom_extend (pfx name : String) (names : List String) :
    ∀ (results : List Val) (i : Nat) (h : History) (k : String),
      ∃ t, histLookup (appendMetricsFrom pfx name names i results h).1 k =
        histLookup h k ++ t := by
  intro results
  induction results with
  | nil => intro i h k; exact ⟨[], by simp [appendMetricsFrom]⟩
  | cons r rs ih =>
    intro i h k
    simp only [appendMetricsFrom]
    split
    · exact ⟨[], by simp⟩
    · next mn heq =>
      obtain ⟨t1, ht1⟩ := histLookup_histAppend_extend h
        (pfx ++ name ++ "_" ++ mn) (HistVal.metric r) k
      obtain ⟨t2, ht2⟩ := ih (i + 1)
        (histAppend h (pfx ++ name ++ "_" ++ mn) (HistVal.metric r)) k
      exact ⟨t1 ++ t2, by rw [ht2, ht1, List.append_assoc]⟩

theorem processSet_extend (pfx : String) (sm : KerasModel)
    (m? : Option KerasModel) (recp : Bool) (bs : Option Nat) (h : History)
    (spec : ParsedSpec) (k : String) :
    ∃ t, histLookup (processSet pfx sm m? recp bs h spec).1 k =
      histLookup h k ++ t := by
  rcases m? with _ | m
  · rw [processSet_noneModel]
    exact appendAll_extend _ h k
  · rcases recp
    · rw [processSet_someModel_noRec]
      exact appendMetricsFrom_extend _ _ _ _ 0 h k
    · rcases hc : collectPredictions m spec with e | p
      · rw [processSet_someModel_err _ _ _ _ _ _ _ hc]
        exact ⟨[], by simp⟩
      · rw [(processSet_someModel pfx sm m bs h spec p hc).1]
        obtain ⟨t1, ht1⟩ := histLookup_histAppend_extend h
          (pfx ++ spec.name ++ "_predictions") (HistVal.preds p) k
        obtain ⟨t2, ht2⟩ := appendMetricsFrom_extend pfx spec.name
          sm.metrics_names (evalResults m bs spec) 0
          (histAppend h (pfx ++ spec.name ++ "_predictions")
            (HistVal.preds p)) k
        refine ⟨t1 ++ t2, ?_⟩
        simp only [appendMetrics]
        rw [ht2, ht1, List.append_assoc]

theorem processSets_extend (pfx : String) (sm : KerasModel)
    (m? : Option KerasModel) (recp : Bool) (bs : Option Nat) :
    ∀ (sets : List (List PyObj)) (h : History) (k : String),
      ∃ t, histLookup (processSets pfx sm m? recp bs h sets).1 k =
        histLookup h k ++ t := by
  intro sets
  induction sets with
  | nil => intro h k; exact ⟨[], by simp [processSets]⟩
  | cons raw rest ih =>
    intro h k
    rcases hp : parseSpec raw with _ | spec
    · simp only [processSets, hp]
      exact ⟨[], by simp⟩
    · simp only [processSets, hp]
      obtain ⟨t1, ht1⟩ := processSet_extend pfx sm m? recp bs h spec k
      rcases hps : processSet pfx sm m? recp bs h spec with ⟨h2, err⟩
      rw [hps] at ht1
      cases err
      · obtain ⟨t2, ht2⟩ := ih h2 k
        exact ⟨t1 ++ t2, by rw [ht2, ht1, List.append_assoc]⟩
      · exact ⟨t1, ht1⟩

/-- C10: when `record_original_history` is enabled, every entry of the
`logs` dict (taken as empty when `logs` is `None`) is appended to the
history under its unmodified key, and the epoch-end evaluation only
extends the per-key sequences afterwards; when disabled, `logs` is
ignored entirely. -/
theorem claim_C10 (st : CallbackState) (sm : KerasModel)
    (m? : Option KerasModel) (pfx : String) (e : Nat)
    (logs : Option (List (String × Val))) :
    (st.record_original_history = true →
      (∀ (kvs : List (String × Val)), logs = some kvs →
        (kvs.map Prod.fst).Nodup →
        (∀ kv ∈ kvs, histLookup (recordLogs st.history kvs) kv.1 =
          histLookup st.history kv.1 ++ [HistVal.metric kv.2]) ∧
        (∀ k, k ∉ kvs.map Prod.fst →
          histLookup (recordLogs st.history kvs) k =
            histLookup st.history k)) ∧
      (logs = none → recordLogs st.history (logs.getD []) = st.history) ∧
      (∀ k, ∃ t,
        histLookup (on_epoch_end st sm m? pfx e logs).1.history k =
          histLookup (recordLogs st.history (logs.getD [])) k ++ t)) ∧
    (st.record_original_history = false →
      on_epoch_end st sm m? pfx e logs = on_epoch_end st sm m? pfx e none) := by
  constructor
  · intro hroh
    refine ⟨?_, ?_, ?_⟩
    · intro kvs hlogs hnd
      exact ⟨histLookup_recordLogs_mem kvs hnd st.history,
        histLookup_recordLogs_not_mem kvs st.history⟩
    · intro hlogs
      subst hlogs
      rfl
    · intro k
      rw [on_epoch_end_hist, if_pos hroh]
      by_cases hlen : st.validation_sets.length = 0
      · rw [if_pos hlen]
        exact ⟨[], by simp⟩
      · rw [if_neg hlen]
        exact processSets_extend _ _ _ _ _ _ _ k
  · intro hroh
    simp [on_epoch_end, hroh]

/-- C10 witness: a concrete state with log recording enabled and one
`loss` entry in the logs. -/
theorem claim_C10_witness :
    ((∀ kv ∈ [("loss", Val.num 3)],
        histLookup (recordLogs (sampleState []).history
          [("loss", Val.num 3)]) kv.1 =
          histLookup (sampleState []).history kv.1 ++
            [HistVal.metric kv.2]) ∧
      (∀ k, k ∉ [("loss", Val.num 3)].map Prod.fst →
        histLookup (recordLogs (sampleState []).history
          [("loss", Val.num 3)]) k = histLookup (sampleState []).history k)) ∧
    (∃ t, histLookup (on_epoch_end (sampleState []) sampleModel none "" 0
        (some [("loss", Val.num 3)])).1.history "loss" =
      histLookup (recordLogs (sampleState []).history
        ((some [("loss", Val.num 3)]).getD [])) "loss" ++ t) :=
  ⟨((claim_C10 (sampleState []) sampleModel none "" 0
      (some [("loss", Val.num 3)])).1 rfl).1 [("loss", Val.num 3)] rfl
      (by decide),
   ((claim_C10 (sampleState []) sampleModel none "" 0
      (some [("loss", Val.num 3)])).1 rfl).2.2 "loss"⟩

end AdditionalValidationSets
